import Mathlib

/-!
Verification of the mockably data-access engine.

This file gives a shallow embedding, in Lean, of the engine shipped in
`packages/mockably-predev`: the column-definition builder
(`ColumnDefinitionBuilder`), the in-memory query engine (`QueryBuilder`),
and the IndexedDB-backed database engine (`idb.ts`): schema
materialisation on upgrade, the transaction gateway promise, the CRUD
lifecycle gate, and the update/delete execution paths.  Each definition is
translated from the TypeScript source; theorems at the end of the file
settle the specification claims against these definitions.
-/

/-
JavaScript runtime values, restricted to the primitive shapes the engine
actually stores and compares: `null`, `undefined`, booleans, numbers
(modelled as integers; the todo engine only ever compares integral data),
strings and arrays.  Plain objects and `Date` objects are not modelled;
no claim exercises them.
-/
inductive JsValue where
  | null
  | undef
  | bool (b : Bool)
  | num (n : Int)
  | str (s : String)
  | arr (elems : List JsValue)

/- `v === null` / `v !== null`, used by the matcher's null guards. -/
def isNull : JsValue → Bool
  | .null => true
  | _ => false

/-
JavaScript strict equality `===` on the modelled values.  Arrays (and in
general objects) compare by reference in JavaScript; a value held in the
store and a value supplied by the caller are always distinct references,
so array-to-array strict equality is `false` here.
-/
def jsStrictEq : JsValue → JsValue → Bool
  | .null, .null => true
  | .undef, .undef => true
  | .bool x, .bool y => x == y
  | .num x, .num y => x == y
  | .str x, .str y => x == y
  | _, _ => false

/-
`ToString` of an array element when an array is coerced to a string
(`Array.prototype.toString` joins elements with commas; `null` and
`undefined` become the empty string).
-/
mutual
def elemString : JsValue → String
  | .null => ""
  | .undef => ""
  | .bool b => if b then "true" else "false"
  | .num n => toString n
  | .str s => s
  | .arr l => joinComma l
def joinComma : List JsValue → String
  | [] => ""
  | [v] => elemString v
  | v :: vs => elemString v ++ "," ++ joinComma vs
end

/-
`ToNumber` on a string: the model covers the empty/whitespace string
(which converts to `0`) and optionally-signed decimal integer literals;
anything else is NaN (`none`).  The engine's own data never exercises
other numeric syntaxes.
-/
def strToNumber (s : String) : Option Int :=
  let t := s.trim
  if t = "" then some 0
  else if t.startsWith "-" then
    match (t.drop 1).toNat? with
    | some n => some (-(n : Int))
    | none => none
  else
    match t.toNat? with
    | some n => some ((n : Int))
    | none => none

/- JavaScript `ToNumber`; `none` is NaN. -/
def valueToNumber : JsValue → Option Int
  | .null => some 0
  | .undef => none
  | .bool b => some (if b then 1 else 0)
  | .num n => some n
  | .str s => strToNumber s
  | .arr l => strToNumber (joinComma l)

def numLt : Option Int → Option Int → Bool
  | some x, some y => decide (x < y)
  | _, _ => false

def numLe : Option Int → Option Int → Bool
  | some x, some y => decide (x ≤ y)
  | _, _ => false

/-
JavaScript abstract relational comparison `a < b`: lexicographic when both
sides are strings, otherwise numeric with NaN making the comparison false.
-/
def jsLt (a b : JsValue) : Bool :=
  match a, b with
  | .str s1, .str s2 => decide (s1 < s2)
  | _, _ => numLt (valueToNumber a) (valueToNumber b)

/- JavaScript `a > b` is the relational comparison with swapped operands. -/
def jsGt (a b : JsValue) : Bool := jsLt b a

/- JavaScript `a >= b`: false on NaN, otherwise the negation of `a < b`. -/
def jsGe (a b : JsValue) : Bool :=
  match a, b with
  | .str s1, .str s2 => !(decide (s1 < s2))
  | _, _ => numLe (valueToNumber b) (valueToNumber a)

/- JavaScript `a <= b`: false on NaN, otherwise the negation of `b < a`. -/
def jsLe (a b : JsValue) : Bool :=
  match a, b with
  | .str s1, .str s2 => !(decide (s2 < s1))
  | _, _ => numLe (valueToNumber a) (valueToNumber b)

def startsWithChars : List Char → List Char → Bool
  | [], _ => true
  | _ :: _, [] => false
  | n :: ns, h :: hs => n == h && startsWithChars ns hs

def hasSubChars (needle : List Char) : List Char → Bool
  | [] => needle.isEmpty
  | h :: hs => startsWithChars needle (h :: hs) || hasSubChars needle hs

/- `s.includes(sub)` on strings. -/
def strIncludes (s sub : String) : Bool := hasSubChars sub.data s.data

/-
One operator object of the `WhereCondition` language (QueryBuilder.ts).
A field holds `some v` exactly when the corresponding key is present on
the object (`"key" in condition`); keys the matcher does not recognise
are not representable and are irrelevant to its behaviour.
-/
structure OpObject where
  equals : Option JsValue
  notEquals : Option JsValue
  greaterThan : Option JsValue
  greaterThanOrEqual : Option JsValue
  lessThan : Option JsValue
  lessThanOrEqual : Option JsValue
  inArray : Option JsValue
  isBetween : Option JsValue
  contains : Option JsValue
  looseContains : Option JsValue

/- The operator object with none of the recognised keys. -/
def noOps : OpObject := ⟨none, none, none, none, none, none, none, none, none, none⟩

/-
A per-field condition: either a bare value (tested with `===`) or an
operator object.  The source distinguishes the two cases with
`typeof condition === "object" && condition !== null && !Array.isArray(condition)
&& !(condition instanceof Date)`; bare arrays therefore stay in the
equality branch, which the sum type reflects directly.
-/
inductive FieldCondition where
  | bare (v : JsValue)
  | opObj (o : OpObject)

/-
`QueryBuilder.matches`, operator-object branch: the fixed cascade of
`if ("key" in condition)` tests.  Guard failures (non-array `inArray`
operand, non-pair `isBetween` operand, non-string `contains` /
`looseContains` operand or field value) fall through to the next test;
if nothing decides, the result is `false`.
-/
def evalOpObj (itemValue : JsValue) (o : OpObject) : Bool :=
  let loosePart : Bool :=
    match o.looseContains, itemValue with
    | some (.str sub), .str s => strIncludes s.toLower sub.toLower
    | _, _ => false
  let containsPart : Bool :=
    match o.contains, itemValue with
    | some (.str sub), .str s => strIncludes s sub
    | _, _ => loosePart
  let betweenPart : Bool :=
    match o.isBetween with
    | some (.arr [mn, mx]) =>
        !(isNull itemValue) && !(isNull mn) && !(isNull mx) &&
          jsGe itemValue mn && jsLe itemValue mx
    | some _ => containsPart
    | none => containsPart
  let inArrayPart : Bool :=
    match o.inArray with
    | some (.arr l) => l.any (fun e => jsStrictEq e itemValue)
    | some _ => betweenPart
    | none => betweenPart
  match o.equals with
  | some v => jsStrictEq itemValue v
  | none =>
  match o.notEquals with
  | some v => !(jsStrictEq itemValue v)
  | none =>
  match o.greaterThan with
  | some v => !(isNull itemValue) && !(isNull v) && jsGt itemValue v
  | none =>
  match o.greaterThanOrEqual with
  | some v => !(isNull itemValue) && !(isNull v) && jsGe itemValue v
  | none =>
  match o.lessThan with
  | some v => !(isNull itemValue) && !(isNull v) && jsLt itemValue v
  | none =>
  match o.lessThanOrEqual with
  | some v => !(isNull itemValue) && !(isNull v) && jsLe itemValue v
  | none => inArrayPart

def evalCondition (itemValue : JsValue) : FieldCondition → Bool
  | .bare v => jsStrictEq itemValue v
  | .opObj o => evalOpObj itemValue o

/- A record as the matcher sees it: `item[key]` is `undefined` for absent keys. -/
abbrev Item := String → JsValue

/-
`QueryBuilder.matches`: all per-field conditions are AND-combined
(`Object.entries(this.conditions).every(...)`).
-/
def matchesConds (conds : List (String × FieldCondition)) (item : Item) : Bool :=
  conds.all (fun kc => evalCondition (item kc.1) kc.2)

inductive Direction where
  | asc
  | desc
deriving DecidableEq

/-
The per-key body of the sort comparator in `QueryBuilder.applyQuery`:
`null` before non-null, then `<` / `>`, then the sign flip for `desc`.
-/
def cmpVal (valA valB : JsValue) : Int :=
  if isNull valA && !(isNull valB) then -1
  else if !(isNull valA) && isNull valB then 1
  else if !(isNull valA) && !(isNull valB) then
    (if jsLt valA valB then -1 else if jsGt valA valB then 1 else 0)
  else 0

def cmpOne (field : String) (dir : Direction) (a b : Item) : Int :=
  let comparison := cmpVal (a field) (b field)
  if dir = Direction.desc then -comparison else comparison

/-
The full comparator: the registered ordering keys are tried in order and
the first non-zero comparison is returned (successive tie-breaks).
-/
def cmpKeys : List (String × Direction) → Item → Item → Int
  | [], _, _ => 0
  | (f, d) :: rest, a, b =>
    let c := cmpOne f d a b
    if c ≠ 0 then c else cmpKeys rest a b

/- The state of one `QueryBuilder` instance. -/
structure Query where
  conditions : List (String × FieldCondition)
  limitValue : Option Int
  orderByConditions : List (String × Direction)

/- A freshly constructed `QueryBuilder`. -/
def initQuery : Query := ⟨[], none, []⟩

def lookupCond (l : List (String × FieldCondition)) (k : String) : Option FieldCondition :=
  match l.find? (fun kc => kc.1 == k) with
  | some kc => some kc.2
  | none => none

/-
`where(conditions)`: `this.conditions = { ...this.conditions, ...conditions }` —
existing keys keep their position but take the new value, new keys are
appended.
-/
def mergeConds (olds news : List (String × FieldCondition)) : List (String × FieldCondition) :=
  olds.map (fun kc =>
    match lookupCond news kc.1 with
    | some c => (kc.1, c)
    | none => kc)
  ++ news.filter (fun kc => !(olds.any (fun oc => oc.1 == kc.1)))

def qwhere (q : Query) (conds : List (String × FieldCondition)) : Query :=
  ⟨mergeConds q.conditions conds, q.limitValue, q.orderByConditions⟩

/- `limit(count)`: stores the count unconditionally. -/
def qlimit (q : Query) (count : Int) : Query :=
  ⟨q.conditions, some count, q.orderByConditions⟩

/- `orderBy(field, direction)`: appends an ordering key (registration order). -/
def qorderBy (q : Query) (field : String) (dir : Direction) : Query :=
  ⟨q.conditions, q.limitValue, q.orderByConditions ++ [(field, dir)]⟩

def sortLe (obs : List (String × Direction)) (a b : Item) : Prop :=
  cmpKeys obs a b ≤ 0

instance (obs : List (String × Direction)) : DecidableRel (sortLe obs) :=
  fun a b => inferInstanceAs (Decidable (cmpKeys obs a b ≤ 0))

/-
`Array.prototype.sort` with the comparator, modelled as the stable
insertion sort (the ECMAScript sort is required to be stable).
-/
def sortStep (obs : List (String × Direction)) (l : List Item) : List Item :=
  List.insertionSort (sortLe obs) l

/- `applyQuery` before the limit step: filter, then sort if keys are registered. -/
def filteredSorted (q : Query) (data : List Item) : List Item :=
  let result := data.filter (fun item => matchesConds q.conditions item)
  if q.orderByConditions.length > 0 then sortStep q.orderByConditions result else result

/-
`QueryBuilder.applyQuery`: filter → sort → limit; the `slice(0, limit)` cap
is applied only when a limit is set and is non-negative.
-/
def applyQuery (q : Query) (data : List Item) : List Item :=
  let result := filteredSorted q data
  match q.limitValue with
  | some n => if 0 ≤ n then result.take n.toNat else result
  | none => result

/-
A record or partial payload as an explicit key-value map: `some v` means
the key is present with value `v`, `none` means the key is absent.
Used for the update merge, where key presence (not value) drives both the
primary-key strip and the `"updatedAt" in dataToSet` test.
-/
abbrev RecordMap := String → Option JsValue

/-
The merge performed per matched record by `createUpdateQuery`:
`const { [primaryKeyPath]: _pk, ...safeDataToSet } = dataToSet;
 const updatedRecord = { ...record, ...safeDataToSet,
   ...(!("updatedAt" in dataToSet) ? { updatedAt: new Date() } : {}) };`
`now` stands for the freshly constructed `Date`.
-/
def mergeUpdate (primaryKeyPath : String) (record dataToSet : RecordMap)
    (now : JsValue) : RecordMap :=
  fun k =>
    if k == "updatedAt" && (dataToSet "updatedAt").isNone then some now
    else
      match (if k == primaryKeyPath then none else dataToSet k) with
      | some v => some v
      | none => record k

/- ColumnDefinitionBuilder.ts -/

inductive BaseColumnType where
  | STRING
  | NUMBER
  | BOOLEAN
  | DATE
  | OBJECT
  | ARRAY
deriving DecidableEq

/-
A column definition.  The source marks the flags as optional fields that
are present only when set; an absent flag and a `false` flag are
indistinguishable to every consumer, so they are modelled as `Bool`.
-/
structure ColumnDefinition where
  _type : BaseColumnType
  _isPrimaryKey : Bool
  _isAutoIncrement : Bool
  _isNullable : Bool
  _isUnique : Bool
deriving DecidableEq

def initDef (t : BaseColumnType) : ColumnDefinition := ⟨t, false, false, false, false⟩

/- The chainable operations of `BaseColumnBuilder`, plus `build()`. -/
inductive BuilderOp where
  | primaryKey
  | autoIncrement
  | nullable (flag : Bool)
  | unique (flag : Bool)
  | build

/-
One builder call acting on the builder's single mutable `definition`
object.  `autoIncrement()` throws on misuse; `unique(true)` on a primary
key only warns and (because its inner branches are unreachable) leaves
the definition unchanged; `build()` reads the definition without copying
or freezing it.
-/
def builderStep (d : ColumnDefinition) : BuilderOp → Except String ColumnDefinition
  | .primaryKey => .ok ⟨d._type, true, d._isAutoIncrement, d._isNullable, d._isUnique⟩
  | .autoIncrement =>
    if !d._isPrimaryKey then
      .error "autoIncrement() must be called after primaryKey()."
    else if d._type ≠ BaseColumnType.NUMBER then
      .error "autoIncrement can only be applied to a NUMBER primary key."
    else .ok ⟨d._type, d._isPrimaryKey, true, d._isNullable, d._isUnique⟩
  | .nullable flag => .ok ⟨d._type, d._isPrimaryKey, d._isAutoIncrement, flag, d._isUnique⟩
  | .unique flag =>
    if d._isPrimaryKey && flag then .ok d
    else .ok ⟨d._type, d._isPrimaryKey, d._isAutoIncrement, d._isNullable, flag⟩
  | .build => .ok d

/-
Running a call sequence against a builder constructed for base type `t`.
The value is the content of the builder's `definition` object afterwards —
which is also what every previous `build()` call returned, since `build()`
hands out the object itself, not a copy.
-/
def builderRun (t : BaseColumnType) (ops : List BuilderOp) : Except String ColumnDefinition :=
  ops.foldlM builderStep (initDef t)

/- idb.ts — upgrade path (`onupgradeneeded` / `createObjectStore`) -/

/- JavaScript truthiness of the `primaryKeyPath` variable (`string | undefined`). -/
def truthyPath : Option String → Bool
  | some s => s != ""
  | none => false

inductive UpgradeError where
  | multiplePrimaryKeys (store : String)
  | autoIncrementNotNumber (store : String) (column : String)
  | noPrimaryKey (store : String)
deriving DecidableEq

/-
The column scan of `createObjectStore`: finds the primary-key path and
the auto-increment flag, throwing on a second (truthy) primary key or on
a non-NUMBER auto-increment key.
-/
def findPrimaryKey (storeName : String) :
    List (String × ColumnDefinition) → Option String → Bool →
    Except UpgradeError (Option String × Bool)
  | [], pkPath, autoInc => .ok (pkPath, autoInc)
  | c :: rest, pkPath, autoInc =>
    if c.2._isPrimaryKey then
      if truthyPath pkPath then .error (.multiplePrimaryKeys storeName)
      else if c.2._isAutoIncrement then
        if c.2._type ≠ BaseColumnType.NUMBER then
          .error (.autoIncrementNotNumber storeName c.1)
        else findPrimaryKey storeName rest (some c.1) true
      else findPrimaryKey storeName rest (some c.1) autoInc
    else findPrimaryKey storeName rest pkPath autoInc

/- A store as created on the backend, with its secondary unique indexes. -/
structure CreatedStore where
  name : String
  keyPath : String
  autoIncrement : Bool
  indexes : List String
deriving DecidableEq

/-
`createObjectStore(storeName, columns)`: skip (with a warning) when the
store already exists; otherwise scan the columns, throw when no primary
key was found, create the store, then create a `<column>_unique_idx`
index for every unique non-key column (skipping duplicates).
`.ok none` is the skip outcome.
-/
def createObjectStoreModel (existingStores : List String) (storeName : String)
    (columns : List (String × ColumnDefinition)) : Except UpgradeError (Option CreatedStore) :=
  if existingStores.contains storeName then .ok none
  else
    match findPrimaryKey storeName columns none false with
    | .error e => .error e
    | .ok (pkPath, autoInc) =>
      if !(truthyPath pkPath) then .error (.noPrimaryKey storeName)
      else
        let keyPath := pkPath.getD ""
        let indexes := columns.foldl
          (fun acc c =>
            if c.2._isUnique && c.1 != keyPath then
              (if acc.contains (c.1 ++ "_unique_idx") then acc
               else acc ++ [c.1 ++ "_unique_idx"])
            else acc) []
        .ok (some ⟨storeName, keyPath, autoInc, indexes⟩)

/-
The `onupgradeneeded` loop over the parsed schema: each store is created
in iteration order; the first thrown error stops the loop, rejects the
readiness promise, and is the second component of the result.  The first
component lists the stores whose creation had already been issued.
-/
def upgradeGo : List (String × List (String × ColumnDefinition)) → List String →
    List CreatedStore → List CreatedStore × Option UpgradeError
  | [], _, created => (created, none)
  | (storeName, columns) :: rest, existing, created =>
    match createObjectStoreModel existing storeName columns with
    | .error e => (created, some e)
    | .ok none => upgradeGo rest existing created
    | .ok (some cs) => upgradeGo rest (existing ++ [storeName]) (created ++ [cs])

def upgradeModel (schema : List (String × List (String × ColumnDefinition)))
    (existingStores : List String) : List CreatedStore × Option UpgradeError :=
  upgradeGo schema existingStores []

/- The number of primary-key columns of a store schema. -/
def pkCount (columns : List (String × ColumnDefinition)) : Nat :=
  (columns.filter (fun c => c.2._isPrimaryKey)).length

/- idb.ts — engine lifecycle and the CRUD fail-fast gate -/

inductive ReadyState where
  | pending
  | resolved
  | rejected
deriving DecidableEq

/-
The observable state of one `IDB` instance: whether `this._db` has been
assigned, which store names have entries in `this.tables`, and the state
of the single-assignment readiness promise.
-/
structure EngineState where
  hasDb : Bool
  tables : List String
  ready : ReadyState
deriving DecidableEq

/- How a CRUD invocation `db.tables[store].op(...)` fails or proceeds. -/
inductive CrudOutcome where
  | tableTypeError
  | notOpenRejection
  | backendIssued
deriving DecidableEq

/-
Invoking a CRUD operation: `this.tables[storeName]` is looked up first —
if no operation set was synthesised for the store the access throws a
TypeError synchronously; otherwise the private `transaction` method
rejects with the not-open error when `this._db` is unset, and only then
is a backend transaction opened.
-/
def invokeCrud (st : EngineState) (storeName : String) : CrudOutcome :=
  if st.tables.contains storeName then
    (if st.hasDb then .backendIssued else .notOpenRejection)
  else .tableTypeError

/-
States reachable by one `IDB` handle whose schema names the stores
`storeNames`: construction, the `onupgradeneeded` handler (which assigns
`this._db` and, on a thrown error, rejects readiness), the `onsuccess`
handler (which assigns `this._db`, synthesises `this.tables`, and
resolves readiness), and the `onerror` handler (which rejects readiness).
-/
inductive EngineReachable (storeNames : List String) : EngineState → Prop where
  | construct : EngineReachable storeNames ⟨false, [], .pending⟩
  | upgradeNeeded (d : Bool) :
      EngineReachable storeNames ⟨d, [], .pending⟩ →
      EngineReachable storeNames ⟨true, [], .pending⟩
  | upgradeFailed (d : Bool) :
      EngineReachable storeNames ⟨d, [], .pending⟩ →
      EngineReachable storeNames ⟨true, [], .rejected⟩
  | openSucceeded (d : Bool) :
      EngineReachable storeNames ⟨d, [], .pending⟩ →
      EngineReachable storeNames ⟨true, storeNames, .resolved⟩
  | openFailed (d : Bool) :
      EngineReachable storeNames ⟨d, [], .pending⟩ →
      EngineReachable storeNames ⟨d, [], .rejected⟩

/- idb.ts — the transaction gateway promise -/

inductive GatewayError where
  | requestFailure
  | abortError
  | transactionFailure
deriving DecidableEq

inductive GatewayEvent where
  | requestSuccess (result : JsValue)
  | requestError
  | transactionAbort
  | transactionError

inductive GatewayOutcome where
  | resolvedWith (result : JsValue)
  | rejectedWith (e : GatewayError)

/-
What each handler wired up in the private `transaction` method does to
the promise: `request.onsuccess` resolves with the result,
`request.onerror` rejects with the request error, `transaction.onabort`
rejects with the transaction error (or a synthesised AbortError), and
`transaction.onerror` rejects with the transaction error.
-/
def gatewayEventOutcome : GatewayEvent → GatewayOutcome
  | .requestSuccess v => .resolvedWith v
  | .requestError => .rejectedWith .requestFailure
  | .transactionAbort => .rejectedWith .abortError
  | .transactionError => .rejectedWith .transactionFailure

/-
The settlement of the gateway promise over the sequence of events the
backend delivers, in delivery order: a promise settles exactly once, so
the first `resolve`/`reject` call wins and all later calls are ignored.
-/
def settleGateway (events : List GatewayEvent) : Option GatewayOutcome :=
  events.foldl
    (fun acc e =>
      match acc with
      | some o => some o
      | none => some (gatewayEventOutcome e))
    none

def outcomeIsRejected : Option GatewayOutcome → Bool
  | some (.rejectedWith _) => true
  | _ => false

/- idb.ts — delete execution -/

/-
`isValidKey`: string, number, `Date`, or an array of valid keys.  (`Date`
is outside the modelled value universe.)
-/
mutual
def isValidKey : JsValue → Bool
  | .str _ => true
  | .num _ => true
  | .arr elems => isValidKeyList elems
  | _ => false
def isValidKeyList : List JsValue → Bool
  | [] => true
  | v :: vs => isValidKey v && isValidKeyList vs
end

/-
`executeDelete`: apply the builder's query to the full record set, then
issue one per-record delete transaction keyed by the record's primary-key
value; records whose key value fails `isValidKey` are silently resolved
without a delete.  The result lists the keys for which a delete request
is issued, in order.
-/
def issuedDeleteKeys (builder : Query) (records : List Item)
    (primaryKeyPath : String) : List JsValue :=
  (applyQuery builder records).foldr
    (fun record acc =>
      if isValidKey (record primaryKeyPath) then record primaryKeyPath :: acc
      else acc) []

/-
Directly awaiting the object returned by `delete()` without calling
`where()`: the thenable branch runs `executeDelete` with the freshly
constructed (empty-condition) `QueryBuilder`.
-/
def deleteThenKeys (records : List Item) (primaryKeyPath : String) : List JsValue :=
  issuedDeleteKeys initQuery records primaryKeyPath

/- The deciding-key reformulation of the matcher (for claim C6) -/

inductive OpKey where
  | kEquals
  | kNotEquals
  | kGreaterThan
  | kGreaterThanOrEqual
  | kLessThan
  | kLessThanOrEqual
  | kInArray
  | kIsBetween
  | kContains
  | kLooseContains
deriving DecidableEq

/-
The first operator key, in the matcher's fixed precedence, that is
present AND whose type guard passes (`inArray` needs an array operand,
`isBetween` a two-element array operand, `contains` / `looseContains`
a string operand and a string field value).
-/
def decidingKey (itemValue : JsValue) (o : OpObject) : Option OpKey :=
  match o.equals with
  | some _ => some .kEquals
  | none =>
  match o.notEquals with
  | some _ => some .kNotEquals
  | none =>
  match o.greaterThan with
  | some _ => some .kGreaterThan
  | none =>
  match o.greaterThanOrEqual with
  | some _ => some .kGreaterThanOrEqual
  | none =>
  match o.lessThan with
  | some _ => some .kLessThan
  | none =>
  match o.lessThanOrEqual with
  | some _ => some .kLessThanOrEqual
  | none =>
  match o.inArray with
  | some (.arr _) => some .kInArray
  | _ =>
  match o.isBetween with
  | some (.arr [_, _]) => some .kIsBetween
  | _ =>
  match o.contains, itemValue with
  | some (.str _), .str _ => some .kContains
  | _, _ =>
  match o.looseContains, itemValue with
  | some (.str _), .str _ => some .kLooseContains
  | _, _ => none

/- The evaluation each recognised key performs once it decides. -/
def evalKey (itemValue : JsValue) (o : OpObject) : OpKey → Bool
  | .kEquals =>
    match o.equals with
    | some v => jsStrictEq itemValue v
    | none => false
  | .kNotEquals =>
    match o.notEquals with
    | some v => !(jsStrictEq itemValue v)
    | none => false
  | .kGreaterThan =>
    match o.greaterThan with
    | some v => !(isNull itemValue) && !(isNull v) && jsGt itemValue v
    | none => false
  | .kGreaterThanOrEqual =>
    match o.greaterThanOrEqual with
    | some v => !(isNull itemValue) && !(isNull v) && jsGe itemValue v
    | none => false
  | .kLessThan =>
    match o.lessThan with
    | some v => !(isNull itemValue) && !(isNull v) && jsLt itemValue v
    | none => false
  | .kLessThanOrEqual =>
    match o.lessThanOrEqual with
    | some v => !(isNull itemValue) && !(isNull v) && jsLe itemValue v
    | none => false
  | .kInArray =>
    match o.inArray with
    | some (.arr l) => l.any (fun e => jsStrictEq e itemValue)
    | _ => false
  | .kIsBetween =>
    match o.isBetween with
    | some (.arr [mn, mx]) =>
        !(isNull itemValue) && !(isNull mn) && !(isNull mx) &&
          jsGe itemValue mn && jsLe itemValue mx
    | _ => false
  | .kContains =>
    match o.contains, itemValue with
    | some (.str sub), .str s => strIncludes s sub
    | _, _ => false
  | .kLooseContains =>
    match o.looseContains, itemValue with
    | some (.str sub), .str s => strIncludes s.toLower sub.toLower
    | _, _ => false

/- The relational operator kinds of claim C7, as singleton operator objects. -/
inductive RelOpKind where
  | gtK
  | gteK
  | ltK
  | lteK
  | betweenK
deriving DecidableEq

def mkRelOp : RelOpKind → JsValue → OpObject
  | .gtK, v => ⟨none, none, some v, none, none, none, none, none, none, none⟩
  | .gteK, v => ⟨none, none, none, some v, none, none, none, none, none, none⟩
  | .ltK, v => ⟨none, none, none, none, some v, none, none, none, none, none⟩
  | .lteK, v => ⟨none, none, none, none, none, some v, none, none, none, none⟩
  | .betweenK, v => ⟨none, none, none, none, none, none, none, some v, none, none⟩

/- Specification-side helpers for the ordering claim -/

/- The field value is a number or null (as a STRING-free NUMBER column yields). -/
def numOrNull : JsValue → Bool
  | .null => true
  | .num _ => true
  | _ => false

/- The field value is a string or null (as a STRING column yields). -/
def strOrNull : JsValue → Bool
  | .null => true
  | .str _ => true
  | _ => false

/-
A field is homogeneous over a record set when every record holds a number
or null there, or every record holds a string or null there — exactly what
a schema-conforming NUMBER / DATE / STRING column provides.
-/
def fieldOk (f : String) (data : List Item) : Prop :=
  (∀ r ∈ data, numOrNull (r f) = true) ∨ (∀ r ∈ data, strOrNull (r f) = true)

/- The three values at a field are homogeneous (all num-or-null or all str-or-null). -/
def homTriple (x y z : JsValue) : Prop :=
  (numOrNull x = true ∧ numOrNull y = true ∧ numOrNull z = true) ∨
  (strOrNull x = true ∧ strOrNull y = true ∧ strOrNull z = true)

def asNum : JsValue → Option Int
  | .num n => some n
  | _ => none

def asStr : JsValue → Option String
  | .str s => some s
  | _ => none

/- The reference three-way compare on `Option` with `none` (null) least. -/
def cmpO {beta : Type} [LinearOrder beta] : Option beta → Option beta → Int
  | none, none => 0
  | none, some _ => -1
  | some _, none => 1
  | some x, some y => if x < y then -1 else if y < x then 1 else 0

def toWB {beta : Type} : Option beta → WithBot beta
  | none => ⊥
  | some x => (x : WithBot beta)

/- Concrete data used by witnesses and counterexamples -/

/-
Two operator objects whose first present key (in the matcher's precedence)
is `inArray`, with a non-array operand, and which differ only in the later
`isBetween` operand.
-/
def opFallA : OpObject :=
  ⟨none, none, none, none, none, none, some (JsValue.num 0),
   some (JsValue.arr [JsValue.num 1, JsValue.num 10]), none, none⟩

def opFallB : OpObject :=
  ⟨none, none, none, none, none, none, some (JsValue.num 0),
   some (JsValue.arr [JsValue.num 6, JsValue.num 10]), none, none⟩

/- Records and a query for the ordering witness: field `x` descending. -/

def ordA : Item := fun k => if k = "x" then JsValue.null else JsValue.undef

def ordB : Item := fun k => if k = "x" then JsValue.num 1 else JsValue.undef

def ordC : Item := fun k => if k = "x" then JsValue.num 2 else JsValue.undef

def ordQuery : Query := ⟨[], none, [("x", Direction.desc)]⟩

/- A todo-style record with id 1; absent keys read as `undefined`. -/
def recA : Item := fun k => if k = "id" then JsValue.num 1 else JsValue.undef

/- A todo-style record with id 2. -/
def recB : Item := fun k => if k = "id" then JsValue.num 2 else JsValue.undef

/- A well-formed store schema: one auto-increment NUMBER primary key. -/
def colsGood : List (String × ColumnDefinition) :=
  [("id", ⟨BaseColumnType.NUMBER, true, true, false, false⟩),
   ("title", ⟨BaseColumnType.STRING, false, false, false, false⟩)]

/- A store schema with zero primary-key columns. -/
def colsNoPk : List (String × ColumnDefinition) :=
  [("title", ⟨BaseColumnType.STRING, false, false, false, false⟩)]

/- A database schema whose second store has no primary key. -/
def schemaWithBadStore : List (String × List (String × ColumnDefinition)) :=
  [("todos", colsGood), ("broken", colsNoPk)]

/- An existing record for the update-merge witness. -/
def updRecord : RecordMap := fun k =>
  if k = "id" then some (JsValue.num 1)
  else if k = "completed" then some (JsValue.bool false)
  else if k = "updatedAt" then some JsValue.null
  else none

/- An update payload that tries to rewrite the primary key. -/
def updPayload : RecordMap := fun k =>
  if k = "id" then some (JsValue.num 9)
  else if k = "completed" then some (JsValue.bool true)
  else none

/- Helper lemmas -/

lemma settleGateway_cons (e : GatewayEvent) (rest : List GatewayEvent) :
    settleGateway (e :: rest) = some (gatewayEventOutcome e) := by
  show List.foldl _ (some (gatewayEventOutcome e)) rest = _
  induction rest with
  | nil => rfl
  | cons e2 r2 ih => simpa using ih

/-- Claim C1 (amended): the gateway promise settles with the first completion
signal delivered: a request success that arrives first resolves the promise
(so a later transaction abort or error cannot override it), while a
transaction abort, transaction error, or request error that arrives first
rejects it. -/
theorem gatewayFirstSignalWins :
    (∀ (v : JsValue) (rest : List GatewayEvent),
      settleGateway (GatewayEvent.requestSuccess v :: rest) =
        some (GatewayOutcome.resolvedWith v)) ∧
    (∀ rest : List GatewayEvent,
      outcomeIsRejected (settleGateway (GatewayEvent.transactionAbort :: rest)) = true) ∧
    (∀ rest : List GatewayEvent,
      outcomeIsRejected (settleGateway (GatewayEvent.transactionError :: rest)) = true) ∧
    (∀ rest : List GatewayEvent,
      outcomeIsRejected (settleGateway (GatewayEvent.requestError :: rest)) = true) := by
  refine ⟨fun v rest => ?_, fun rest => ?_, fun rest => ?_, fun rest => ?_⟩ <;>
    simp [settleGateway_cons, gatewayEventOutcome, outcomeIsRejected]

/-- Claim C1 counterexample: when the request signals success before the
transaction aborts, the returned awaitable resolves — it does not reject —
even though the surrounding transaction aborted.  This falsifies the claim
that transaction-level abort overrides a request's own success signal. -/
theorem gatewayAbortCounterexample :
    GatewayEvent.transactionAbort ∈
      [GatewayEvent.requestSuccess (JsValue.num 1), GatewayEvent.transactionAbort] ∧
    settleGateway [GatewayEvent.requestSuccess (JsValue.num 1),
      GatewayEvent.transactionAbort] = some (GatewayOutcome.resolvedWith (JsValue.num 1)) ∧
    outcomeIsRejected (settleGateway [GatewayEvent.requestSuccess (JsValue.num 1),
      GatewayEvent.transactionAbort]) = false :=
  ⟨List.Mem.tail _ (List.Mem.head _), rfl, rfl⟩

lemma builderRun_append_build (t : BaseColumnType) (ops : List BuilderOp) :
    builderRun t (ops ++ [BuilderOp.build]) = builderRun t ops := by
  show List.foldlM builderStep (initDef t) _ = List.foldlM builderStep (initDef t) ops
  generalize initDef t = d
  induction ops generalizing d with
  | nil => rfl
  | cons op rest ih =>
    simp only [List.cons_append, List.foldlM_cons]
    cases builderStep d op <;> simp [ih]

/-- Claim C3 (amended): `build()` itself never mutates the definition and is
idempotent (appending a `build()` call to any call sequence leaves the
definition unchanged), but it returns the builder's live `definition` object
rather than a snapshot: a builder operation invoked after `build()` mutates
the object previously returned by `build()` — after `build(); nullable(true)`
the definition that the earlier `build()` handed out carries the nullable
flag. -/
theorem buildAliasingAmended :
    (∀ (t : BaseColumnType) (ops : List BuilderOp),
      builderRun t (ops ++ [BuilderOp.build]) = builderRun t ops) ∧
    (∀ t : BaseColumnType,
      builderRun t [BuilderOp.build] = .ok ⟨t, false, false, false, false⟩) ∧
    (∀ t : BaseColumnType,
      builderRun t [BuilderOp.build, BuilderOp.nullable true] =
        .ok ⟨t, false, false, true, false⟩) :=
  ⟨builderRun_append_build, fun _ => rfl, fun _ => rfl⟩

/-- Claim C3 counterexample: the definition object returned by `build()` is
not an immutable snapshot — calling `nullable(true)` after `build()` changes
the definition that the earlier `build()` returned (both alias the builder's
internal state), so the builder state after `build(); nullable(true)` differs
from the state the first `build()` exposed. -/
theorem buildSnapshotCounterexample :
    builderRun BaseColumnType.STRING [BuilderOp.build, BuilderOp.nullable true] ≠
      builderRun BaseColumnType.STRING [BuilderOp.build] := by
  intro h
  have h2 : (Except.ok ⟨BaseColumnType.STRING, false, false, true, false⟩ :
      Except String ColumnDefinition) =
      Except.ok ⟨BaseColumnType.STRING, false, false, false, false⟩ := h
  simp at h2

lemma reachable_tables_empty {storeNames : List String} {st : EngineState}
    (h : EngineReachable storeNames st) (hne : st.ready ≠ ReadyState.resolved) :
    st.tables = [] := by
  cases h <;> simp_all

/-- Claim C4 (amended): a CRUD operation invoked before the readiness future
settles, or after it rejects, fails fast without touching the backend — but
the failure is a synchronous TypeError from looking up the missing per-store
operation set (`this.tables` is only populated when readiness resolves), not
the NotOpen error; the NotOpen rejection is produced only by the transaction
gateway's connection guard. -/
theorem crudBeforeReadyAmended (storeNames : List String) (st : EngineState)
    (storeName : String) (h : EngineReachable storeNames st)
    (hr : st.ready = ReadyState.pending ∨ st.ready = ReadyState.rejected) :
    invokeCrud st storeName = CrudOutcome.tableTypeError := by
  have ht : st.tables = [] :=
    reachable_tables_empty h (by rcases hr with h1 | h1 <;> simp [h1])
  simp [invokeCrud, ht]

/-- Claim C4 witness: the freshly constructed (still pending) engine fails a
CRUD call with the TypeError outcome. -/
theorem crudBeforeReadyAmendedWitness :
    invokeCrud ⟨false, [], ReadyState.pending⟩ "todos" = CrudOutcome.tableTypeError :=
  crudBeforeReadyAmended ["todos"] ⟨false, [], ReadyState.pending⟩ "todos"
    EngineReachable.construct (Or.inl rfl)

/-- Claim C4 counterexample: in the reachable pending state the CRUD call does
not produce the NotOpen rejection (it throws the TypeError instead), so the
claim that such calls fail with a NotOpen error is false. -/
theorem crudNotOpenCounterexample :
    EngineReachable ["todos"] ⟨false, [], ReadyState.pending⟩ ∧
    invokeCrud ⟨false, [], ReadyState.pending⟩ "todos" ≠ CrudOutcome.notOpenRejection :=
  ⟨EngineReachable.construct, by decide⟩

/-- Claim C5: the update merge writes the shallow merge of the payload onto
the existing record: the primary-key field keeps its stored value even when
the payload names it, the `updatedAt` field is stamped with the current time
exactly when the payload has no `updatedAt` key (and takes the payload's
value when it does), and every other field follows the payload when named
there and is unchanged otherwise.  The designated timestamp field and the
primary-key field are distinct (`primaryKeyPath ≠ "updatedAt"`), as the
claim presupposes by discussing them separately. -/
theorem updateMergeClaim (primaryKeyPath : String) (record dataToSet : RecordMap)
    (now : JsValue) (hpk : primaryKeyPath ≠ "updatedAt") :
    mergeUpdate primaryKeyPath record dataToSet now primaryKeyPath =
      record primaryKeyPath ∧
    (dataToSet "updatedAt" = none →
      mergeUpdate primaryKeyPath record dataToSet now "updatedAt" = some now) ∧
    (∀ v, dataToSet "updatedAt" = some v →
      mergeUpdate primaryKeyPath record dataToSet now "updatedAt" = some v) ∧
    (∀ k, k ≠ primaryKeyPath → k ≠ "updatedAt" → dataToSet k = none →
      mergeUpdate primaryKeyPath record dataToSet now k = record k) ∧
    (∀ k v, k ≠ primaryKeyPath → k ≠ "updatedAt" → dataToSet k = some v →
      mergeUpdate primaryKeyPath record dataToSet now k = some v) := by
  refine ⟨?_, ?_, ?_, ?_, ?_⟩
  · simp [mergeUpdate, hpk]
  · intro hu
    simp [mergeUpdate, hu]
  · intro v hu
    simp [mergeUpdate, hu, Ne.symm hpk]
  · intro k hk1 hk2 hd
    simp [mergeUpdate, hk1, hk2, hd]
  · intro k v hk1 hk2 hd
    simp [mergeUpdate, hk1, hk2, hd]

/-- Claim C5 witness: merging `{id: 9, completed: true}` into
`{id: 1, completed: false, updatedAt: null}` keeps `id = 1`, stamps
`updatedAt` with the current time, and sets `completed` to the payload
value. -/
theorem updateMergeClaimWitness :
    mergeUpdate "id" updRecord updPayload (JsValue.num 77) "id" = updRecord "id" ∧
    mergeUpdate "id" updRecord updPayload (JsValue.num 77) "updatedAt" =
      some (JsValue.num 77) ∧
    mergeUpdate "id" updRecord updPayload (JsValue.num 77) "completed" =
      some (JsValue.bool true) :=
  ⟨(updateMergeClaim "id" updRecord updPayload (JsValue.num 77) (by decide)).1,
   (updateMergeClaim "id" updRecord updPayload (JsValue.num 77) (by decide)).2.1 rfl,
   (updateMergeClaim "id" updRecord updPayload (JsValue.num 77) (by decide)).2.2.2.2
     "completed" (JsValue.bool true) (by decide) (by decide) rfl⟩

lemma numLt_none_right (x : Option Int) : numLt x none = false := by
  cases x <;> rfl

lemma numLt_none_left (x : Option Int) : numLt none x = false := by
  cases x <;> rfl

lemma numLe_none_right (x : Option Int) : numLe x none = false := by
  cases x <;> rfl

lemma numLe_none_left (x : Option Int) : numLe none x = false := by
  cases x <;> rfl

lemma jsLt_undef_right (v : JsValue) : jsLt v JsValue.undef = false := by
  cases v <;> simp [jsLt, valueToNumber, numLt_none_right]

lemma jsLt_undef_left (v : JsValue) : jsLt JsValue.undef v = false := by
  cases v <;> simp [jsLt, valueToNumber, numLt_none_left]

lemma jsGe_undef_left (v : JsValue) : jsGe JsValue.undef v = false := by
  cases v <;> simp [jsGe, valueToNumber, numLe_none_right]

lemma jsGe_undef_right (v : JsValue) : jsGe v JsValue.undef = false := by
  cases v <;> simp [jsGe, valueToNumber, numLe_none_left]

lemma jsLe_undef_right (v : JsValue) : jsLe v JsValue.undef = false := by
  cases v <;> simp [jsLe, valueToNumber, numLe_none_right]

lemma jsLe_undef_left (v : JsValue) : jsLe JsValue.undef v = false := by
  cases v <;> simp [jsLe, valueToNumber, numLe_none_left]

/-- Claim C7: every relational condition (`greaterThan`, `greaterThanOrEqual`,
`lessThan`, `lessThanOrEqual`, `isBetween`) evaluates to false — and, the
embedding being total, without raising an error — whenever the record's field
value is null or missing (`undefined`), or the condition's operand is null or
missing (the key present with an `undefined` operand). -/
theorem relationalNullSafe (kind : RelOpKind) (operand itemValue : JsValue)
    (h : itemValue = JsValue.null ∨ itemValue = JsValue.undef ∨
      operand = JsValue.null ∨ operand = JsValue.undef) :
    evalOpObj itemValue (mkRelOp kind operand) = false := by
  rcases h with h | h | h | h
  · subst h
    cases kind <;>
      rcases operand with _ | _ | b | n | s | l <;>
        first
          | rfl
          | (rcases l with _ | ⟨a1, _ | ⟨a2, _ | ⟨a3, rest⟩⟩⟩ <;>
              first
                | rfl
                | simp [evalOpObj, mkRelOp, isNull])
          | simp [evalOpObj, mkRelOp, isNull]
  · subst h
    cases kind <;>
      rcases operand with _ | _ | b | n | s | l <;>
        first
          | rfl
          | (rcases l with _ | ⟨a1, _ | ⟨a2, _ | ⟨a3, rest⟩⟩⟩ <;>
              first
                | rfl
                | simp [evalOpObj, mkRelOp, isNull, jsGt, jsLt, jsGe, jsLe,
                    valueToNumber, numLt_none_right, numLt_none_left,
                    numLe_none_right, numLe_none_left, jsGe_undef_left,
                    jsLe_undef_left])
          | simp [evalOpObj, mkRelOp, isNull, jsGt, jsLt, jsGe, jsLe,
              valueToNumber, numLt_none_right, numLt_none_left,
              numLe_none_right, numLe_none_left]
  · subst h
    cases kind <;>
      first
        | rfl
        | simp [evalOpObj, mkRelOp, isNull]
  · subst h
    cases kind <;>
      first
        | rfl
        | simp [evalOpObj, mkRelOp, isNull, jsGt, jsLt_undef_left,
            jsLt_undef_right, jsGe_undef_right, jsLe_undef_right]

/-- Claim C7 witness: `greaterThan 5` against a null field value is false,
and `greaterThan undefined` (a present key with a missing operand) against a
numeric field value is false. -/
theorem relationalNullSafeWitness :
    evalOpObj JsValue.null (mkRelOp RelOpKind.gtK (JsValue.num 5)) = false ∧
    evalOpObj (JsValue.num 5) (mkRelOp RelOpKind.gtK JsValue.undef) = false :=
  ⟨relationalNullSafe RelOpKind.gtK (JsValue.num 5) JsValue.null (Or.inl rfl),
   relationalNullSafe RelOpKind.gtK JsValue.undef (JsValue.num 5)
     (Or.inr (Or.inr (Or.inr rfl)))⟩

lemma foldr_validKeys (pk : String) :
    ∀ records : List Item, records.all (fun r => isValidKey (r pk)) = true →
      records.foldr (fun record acc =>
        if isValidKey (record pk) then record pk :: acc else acc) [] =
        records.map (fun r => r pk) := by
  intro records
  induction records with
  | nil => intro _; rfl
  | cons r rest ih =>
    intro h
    simp only [List.all_cons, Bool.and_eq_true] at h
    simp [h.1, ih h.2]

/-- Claim C9: awaiting `delete()` without calling `where()` runs the delete
with the freshly constructed query: its empty condition set matches every
record, `applyQuery` returns the record set unchanged, and (given the
backend invariant that every stored record carries a valid key at the key
path) a delete is issued for every record in the store. -/
theorem deleteNoWhereClaim :
    (∀ item : Item, matchesConds initQuery.conditions item = true) ∧
    (∀ records : List Item, applyQuery initQuery records = records) ∧
    (∀ (records : List Item) (primaryKeyPath : String),
      records.all (fun r => isValidKey (r primaryKeyPath)) = true →
      deleteThenKeys records primaryKeyPath =
        records.map (fun r => r primaryKeyPath)) := by
  have h2 : ∀ records : List Item, applyQuery initQuery records = records := by
    intro records
    simp [applyQuery, filteredSorted, initQuery, matchesConds]
  refine ⟨fun item => rfl, h2, fun records pk h => ?_⟩
  unfold deleteThenKeys issuedDeleteKeys
  rw [h2]
  exact foldr_validKeys pk records h

/-- Claim C9 witness: awaiting a bare `delete()` over the two-record store
issues deletes for both record keys. -/
theorem deleteNoWhereClaimWitness :
    deleteThenKeys [recA, recB] "id" = [JsValue.num 1, JsValue.num 2] := by
  have h := deleteNoWhereClaim.2.2 [recA, recB] "id" (by decide)
  simpa [recA, recB] using h

/-- Claim C10: a negative `limit` leaves the result uncapped — `applyQuery`
returns the full filtered and sorted record list — while `limit 0` yields
the empty list and a positive `limit n` yields exactly the first `n`
records of the filtered and sorted list. -/
theorem limitSemantics :
    (∀ (q : Query) (data : List Item) (n : Int), n < 0 →
      applyQuery (qlimit q n) data = filteredSorted q data) ∧
    (∀ (q : Query) (data : List Item), applyQuery (qlimit q 0) data = []) ∧
    (∀ (q : Query) (data : List Item) (n : Int), 0 < n →
      applyQuery (qlimit q n) data = (filteredSorted q data).take n.toNat) := by
  refine ⟨fun q data n hn => ?_, fun q data => ?_, fun q data n hn => ?_⟩
  · have hneg : ¬ (0:Int) ≤ n := by omega
    simp [applyQuery, qlimit, filteredSorted, hneg]
  · simp [applyQuery, qlimit, filteredSorted]
  · have hpos : (0:Int) ≤ n := by omega
    simp [applyQuery, qlimit, filteredSorted, hpos]

/-- Claim C10 witness: limits of -1, 0 and 2 on a two-record query. -/
theorem limitSemanticsWitness :
    applyQuery (qlimit initQuery (-1)) [recA, recB] =
      filteredSorted initQuery [recA, recB] ∧
    applyQuery (qlimit initQuery 0) [recA, recB] = [] ∧
    applyQuery (qlimit initQuery 2) [recA, recB] =
      (filteredSorted initQuery [recA, recB]).take (Int.toNat 2) :=
  ⟨limitSemantics.1 initQuery [recA, recB] (-1) (by decide),
   limitSemantics.2.1 initQuery [recA, recB],
   limitSemantics.2.2 initQuery [recA, recB] 2 (by decide)⟩

lemma pkCount_cons (c : String × ColumnDefinition)
    (rest : List (String × ColumnDefinition)) :
    pkCount (c :: rest) = (if c.2._isPrimaryKey then 1 else 0) + pkCount rest := by
  cases h : c.2._isPrimaryKey <;> simp [pkCount, List.filter_cons, h] <;> omega

lemma findPrimaryKey_no_pk (storeName : String) :
    ∀ (cols : List (String × ColumnDefinition)) (pkPath : Option String)
      (autoInc : Bool),
      (∀ c ∈ cols, c.2._isPrimaryKey = false) →
      findPrimaryKey storeName cols pkPath autoInc = .ok (pkPath, autoInc) := by
  intro cols
  induction cols with
  | nil => intro pk ai _; rfl
  | cons c rest ih =>
    intro pk ai h
    have hc : c.2._isPrimaryKey = false := h c (List.mem_cons_self c rest)
    have hr : ∀ c2 ∈ rest, c2.2._isPrimaryKey = false :=
      fun c2 hm => h c2 (List.mem_cons_of_mem c hm)
    simp [findPrimaryKey, hc]
    exact ih pk ai hr

lemma findPrimaryKey_err (storeName : String) :
    ∀ (cols : List (String × ColumnDefinition)) (pkPath : Option String)
      (autoInc : Bool),
      (∀ c ∈ cols, c.1 ≠ "") →
      (truthyPath pkPath = true ∧ 1 ≤ pkCount cols ∨ 2 ≤ pkCount cols) →
      ∃ e, findPrimaryKey storeName cols pkPath autoInc = .error e := by
  intro cols
  induction cols with
  | nil =>
    intro pk ai _ h
    exfalso
    rcases h with ⟨_, h1⟩ | h1 <;> simp [pkCount] at h1
  | cons c rest ih =>
    intro pk ai hn h
    have hnr : ∀ c2 ∈ rest, c2.1 ≠ "" :=
      fun c2 hm => hn c2 (List.mem_cons_of_mem c hm)
    cases hc : c.2._isPrimaryKey
    case false =>
      have h2 : truthyPath pk = true ∧ 1 ≤ pkCount rest ∨ 2 ≤ pkCount rest := by
        rw [pkCount_cons] at h
        rcases h with ⟨ht, hcount⟩ | h2
        · left; refine ⟨ht, ?_⟩; simp [hc] at hcount; omega
        · right; simp [hc] at h2; omega
      rcases ih pk ai hnr h2 with ⟨e, he⟩
      exact ⟨e, by simp [findPrimaryKey, hc, he]⟩
    case true =>
      cases htr : truthyPath pk
      case true =>
        exact ⟨.multiplePrimaryKeys storeName, by simp [findPrimaryKey, hc, htr]⟩
      case false =>
        have h2 : 2 ≤ pkCount (c :: rest) := by
          rcases h with ⟨ht, _⟩ | h2
          · rw [htr] at ht; cases ht
          · exact h2
        have hrest : 1 ≤ pkCount rest := by
          rw [pkCount_cons] at h2; simp [hc] at h2; omega
        have hcname : c.1 ≠ "" := hn c (List.mem_cons_self c rest)
        have htv : truthyPath (some c.1) = true := by
          simp [truthyPath]
          exact hcname
        cases hai : c.2._isAutoIncrement
        case false =>
          rcases ih (some c.1) ai hnr (Or.inl ⟨htv, hrest⟩) with ⟨e, he⟩
          exact ⟨e, by simp [findPrimaryKey, hc, htr, hai, he]⟩
        case true =>
          by_cases hty : c.2._type = BaseColumnType.NUMBER
          · rcases ih (some c.1) true hnr (Or.inl ⟨htv, hrest⟩) with ⟨e, he⟩
            exact ⟨e, by simp [findPrimaryKey, hc, htr, hai, hty, he]⟩
          · exact ⟨.autoIncrementNotNumber storeName c.1,
              by simp [findPrimaryKey, hc, htr, hai, hty]⟩

lemma createObjectStore_err (existing : List String) (storeName : String)
    (cols : List (String × ColumnDefinition))
    (hmem : storeName ∉ existing)
    (hn : ∀ c ∈ cols, c.1 ≠ "")
    (hpk : pkCount cols ≠ 1) :
    ∃ e, createObjectStoreModel existing storeName cols = .error e := by
  have hcontains : existing.contains storeName = false := by simpa using hmem
  rcases Nat.lt_or_ge (pkCount cols) 1 with hlt | hge
  · have h0 : pkCount cols = 0 := by omega
    have hall : ∀ c ∈ cols, c.2._isPrimaryKey = false := by
      intro c hc
      have := List.filter_eq_nil_iff.mp (List.length_eq_zero.mp h0) c hc
      simpa using this
    refine ⟨.noPrimaryKey storeName, ?_⟩
    simp [createObjectStoreModel, hcontains, hmem,
      findPrimaryKey_no_pk storeName cols none false hall, truthyPath]
  · have h2 : 2 ≤ pkCount cols := by omega
    rcases findPrimaryKey_err storeName cols none false hn (Or.inr h2) with ⟨e, he⟩
    exact ⟨e, by simp [createObjectStoreModel, hcontains, hmem, he]⟩

lemma createObjectStoreModel_name (existing : List String) (storeName : String)
    (cols : List (String × ColumnDefinition)) (cs : CreatedStore) :
    createObjectStoreModel existing storeName cols = .ok (some cs) →
    cs.name = storeName := by
  unfold createObjectStoreModel
  cases hc : existing.contains storeName
  · cases hf : findPrimaryKey storeName cols none false with
    | error e => simp
    | ok pr =>
      obtain ⟨pk, ai⟩ := pr
      cases ht : truthyPath pk
      · simp [ht]
      · simp [ht]
        rintro rfl
        rfl
  · simp

lemma upgradeGo_bad (storeName : String) (cols : List (String × ColumnDefinition))
    (hn : ∀ c ∈ cols, c.1 ≠ "") (hpk : pkCount cols ≠ 1) :
    ∀ (schema : List (String × List (String × ColumnDefinition)))
      (existing : List String) (created : List CreatedStore),
      (storeName, cols) ∈ schema →
      storeName ∉ existing →
      storeName ∉ created.map CreatedStore.name →
      (schema.map Prod.fst).Nodup →
      (upgradeGo schema existing created).2.isSome = true ∧
      storeName ∉ (upgradeGo schema existing created).1.map CreatedStore.name := by
  intro schema
  induction schema with
  | nil =>
    intro existing created hmem hex hcr hnd
    exact absurd hmem (List.not_mem_nil _)
  | cons entry rest ih =>
    intro existing created hmem hex hcr hnd
    obtain ⟨sname, scols⟩ := entry
    have hnd' := hnd
    simp only [List.map_cons, List.nodup_cons] at hnd'
    obtain ⟨hsn, hnd2⟩ := hnd'
    rcases List.mem_cons.mp hmem with heq | hmem2
    · injection heq with h1 h2
      subst h1
      subst h2
      rcases createObjectStore_err existing storeName cols hex hn hpk with ⟨e, he⟩
      simp [upgradeGo, he, hcr]
    · have hne : sname ≠ storeName := by
        intro hcontr
        subst hcontr
        exact hsn (List.mem_map_of_mem Prod.fst hmem2)
      cases hres : createObjectStoreModel existing sname scols with
      | error e => simp [upgradeGo, hres, hcr]
      | ok o =>
        cases o with
        | none =>
          have := ih existing created hmem2 hex hcr hnd2
          simpa [upgradeGo, hres] using this
        | some cs =>
          have hcsname : cs.name = sname :=
            createObjectStoreModel_name existing sname scols cs hres
          have hex2 : storeName ∉ existing ++ [sname] := by
            simp only [List.mem_append, List.mem_singleton]
            rintro (h | h)
            · exact hex h
            · exact hne h.symm
          have hcr2 : storeName ∉ (created ++ [cs]).map CreatedStore.name := by
            simp only [List.map_append, List.map_cons, List.map_nil,
              List.mem_append, List.mem_singleton]
            rintro (h | h)
            · exact hcr h
            · rw [hcsname] at h
              exact hne h.symm
          have := ih (existing ++ [sname]) (created ++ [cs]) hmem2 hex2 hcr2 hnd2
          simpa [upgradeGo, hres] using this

/-- Claim C2 (amended): when a store of the schema that does not already
exist on the backend has zero or two-or-more primary-key columns (and the
column names are non-empty, so that JavaScript truthiness coincides with
presence), the upgrade path throws and the readiness future is rejected —
every `UpgradeError` is of the InvalidSchema family — and the offending
store is never created; however, stores appearing earlier in the schema's
iteration order may already have had their creation issued before the
failure, so it is not true that no stores are created for the schema. -/
theorem upgradeInvalidSchema
    (schema : List (String × List (String × ColumnDefinition)))
    (existingStores : List String) (storeName : String)
    (cols : List (String × ColumnDefinition))
    (hmem : (storeName, cols) ∈ schema)
    (hex : storeName ∉ existingStores)
    (hnd : (schema.map Prod.fst).Nodup)
    (hn : ∀ c ∈ cols, c.1 ≠ "")
    (hpk : pkCount cols ≠ 1) :
    (upgradeModel schema existingStores).2.isSome = true ∧
    storeName ∉ (upgradeModel schema existingStores).1.map CreatedStore.name :=
  upgradeGo_bad storeName cols hn hpk schema existingStores [] hmem hex
    (by simp) hnd

/-- Claim C2 witness: opening a fresh database whose only store has zero
primary-key columns rejects and creates nothing for that store. -/
theorem upgradeInvalidSchemaWitness :
    (upgradeModel [("broken", colsNoPk)] []).2.isSome = true ∧
    "broken" ∉ (upgradeModel [("broken", colsNoPk)] []).1.map CreatedStore.name :=
  upgradeInvalidSchema [("broken", colsNoPk)] [] "broken" colsNoPk
    (List.mem_singleton.mpr rfl) (by simp) (by simp) (by decide) (by decide)

/-- Claim C2 counterexample: for the schema `[todos (valid), broken (no
primary key)]` on a fresh backend, the upgrade path does reject with the
no-primary-key InvalidSchema error, but the `todos` store has already been
created — refuting the claim that no stores are created for a schema
containing a store with zero primary-key columns. -/
theorem upgradeCreatesEarlierStoresCounterexample :
    pkCount colsNoPk = 0 ∧
    (upgradeModel schemaWithBadStore []).2 =
      some (UpgradeError.noPrimaryKey "broken") ∧
    (upgradeModel schemaWithBadStore []).1 =
      [⟨"todos", "id", true, []⟩] := by
  refine ⟨by decide, by decide, by decide⟩

set_option maxHeartbeats 3200000 in
/-- Claim C6 (amended): the matcher tests the operator keys in the fixed
precedence `equals, notEquals, greaterThan, greaterThanOrEqual, lessThan,
lessThanOrEqual, inArray, isBetween, contains, looseContains`, but a present
key decides the outcome only when its type guard passes (`inArray` requires
an array operand, `isBetween` a two-element array operand, `contains` and
`looseContains` a string operand and a string field value); when a present
key's guard fails, evaluation falls through to the later keys, and an
operator object in which no key decides evaluates to false (the record is
excluded, with no error). -/
theorem matcherPrecedenceAmended (itemValue : JsValue) (o : OpObject) :
    evalOpObj itemValue o =
      (match decidingKey itemValue o with
       | some k => evalKey itemValue o k
       | none => false) := by
  rcases o with ⟨e, ne, gt0, ge0, lt0, le0, ia, ib, cn, lc⟩
  rcases e with _ | ve <;> try rfl
  rcases ne with _ | vne <;> try rfl
  rcases gt0 with _ | vgt <;> try rfl
  rcases ge0 with _ | vge <;> try rfl
  rcases lt0 with _ | vlt <;> try rfl
  rcases le0 with _ | vle <;> try rfl
  rcases ia with _ | (_ | _ | bIA | nIA | sIA | lIA) <;> try rfl
  all_goals rcases ib with _ | (_ | _ | bIB | nIB | sIB | lIB) <;> try rfl
  all_goals try (rcases lIB with _ | ⟨x1, _ | ⟨x2, _ | ⟨x3, rIB⟩⟩⟩ <;> try rfl)
  all_goals rcases cn with _ | (_ | _ | bCN | nCN | sCN | lCN) <;> try rfl
  all_goals try (rcases itemValue with _ | _ | bIt | nIt | sIt | lIt <;> try rfl)
  all_goals rcases lc with _ | (_ | _ | bLC | nLC | sLC | lLC) <;> try rfl
  all_goals try (rcases itemValue with _ | _ | bIt | nIt | sIt | lIt <;> try rfl)
  all_goals rfl

/-- Claim C6 counterexample: two operator objects in which the first present
key (in the claimed precedence) is `inArray` with identical operands, yet the
match outcome differs with the later `isBetween` operand — because the
non-array `inArray` operand fails its guard and evaluation falls through —
so the first present key does not decide the outcome. -/
theorem matcherFirstKeyCounterexample :
    opFallA.inArray = some (JsValue.num 0) ∧
    opFallB.inArray = some (JsValue.num 0) ∧
    evalOpObj (JsValue.num 5) opFallA = true ∧
    evalOpObj (JsValue.num 5) opFallB = false :=
  ⟨rfl, rfl, rfl, rfl⟩

lemma numLt_asymm (x y : Option Int) (h : numLt x y = true) : numLt y x = false := by
  cases x <;> cases y <;> simp [numLt] at h ⊢ <;> omega

lemma jsLt_asymm (a b : JsValue) (h : jsLt a b = true) : jsLt b a = false := by
  cases a <;> cases b <;>
    simp only [jsLt] at h ⊢ <;>
    first
      | exact numLt_asymm _ _ h
      | (simp only [decide_eq_true_eq] at h
         simp only [decide_eq_false_iff_not]
         exact lt_asymm h)

lemma cmpVal_flip (a b : JsValue) : cmpVal b a = -cmpVal a b := by
  unfold cmpVal
  cases ha : isNull a <;> cases hb : isNull b <;> simp [ha, hb]
  cases h1 : jsLt a b
  · cases h2 : jsLt b a <;> simp [jsGt, h1, h2]
  · have h2 : jsLt b a = false := jsLt_asymm a b h1
    simp [jsGt, h1, h2]

lemma cmpOne_flip (f : String) (d : Direction) (a b : Item) :
    cmpOne f d b a = -cmpOne f d a b := by
  unfold cmpOne
  cases d <;> simp [cmpVal_flip (a f) (b f)]

lemma cmpKeys_flip : ∀ (obs : List (String × Direction)) (a b : Item),
    cmpKeys obs b a = -cmpKeys obs a b := by
  intro obs
  induction obs with
  | nil => intro a b; rfl
  | cons ob rest ih =>
    intro a b
    obtain ⟨f, d⟩ := ob
    simp only [cmpKeys]
    rw [cmpOne_flip]
    by_cases h : cmpOne f d a b = 0
    · simp [h, ih a b]
    · have h2 : -cmpOne f d a b ≠ 0 := by omega
      simp [h, h2]

lemma sortLe_total (obs : List (String × Direction)) (a b : Item) :
    sortLe obs a b ∨ sortLe obs b a := by
  unfold sortLe
  rw [cmpKeys_flip]
  omega

lemma cmpO_neg_iff {beta : Type} [LinearOrder beta] (u v : Option beta) :
    cmpO u v < 0 ↔ toWB u < toWB v := by
  rcases u with _ | x <;> rcases v with _ | y
  · simp [cmpO, toWB]
  · simp [cmpO, toWB]
  · simp [cmpO, toWB]
  · rcases lt_trichotomy x y with h | h | h
    · simp [cmpO, toWB, h, WithBot.coe_lt_coe]
    · subst h
      simp [cmpO, toWB, lt_irrefl]
    · simp [cmpO, toWB, h, lt_asymm h, WithBot.coe_lt_coe]

lemma cmpO_zero_iff {beta : Type} [LinearOrder beta] (u v : Option beta) :
    cmpO u v = 0 ↔ toWB u = toWB v := by
  rcases u with _ | x <;> rcases v with _ | y
  · simp [cmpO, toWB]
  · simp [cmpO, toWB]
  · simp [cmpO, toWB]
  · rcases lt_trichotomy x y with h | h | h
    · simp [cmpO, toWB, h, ne_of_lt h]
    · subst h
      simp [cmpO, toWB, lt_irrefl]
    · simp [cmpO, toWB, h, lt_asymm h, (ne_of_lt h).symm]

lemma cmpO_nonpos_iff {beta : Type} [LinearOrder beta] (u v : Option beta) :
    cmpO u v ≤ 0 ↔ toWB u ≤ toWB v := by
  constructor
  · intro h
    rcases lt_or_eq_of_le h with h1 | h1
    · exact le_of_lt ((cmpO_neg_iff u v).mp h1)
    · exact le_of_eq ((cmpO_zero_iff u v).mp h1)
  · intro h
    rcases lt_or_eq_of_le h with h1 | h1
    · exact le_of_lt ((cmpO_neg_iff u v).mpr h1)
    · exact le_of_eq ((cmpO_zero_iff u v).mpr h1)

lemma cmpVal_eq_cmpO_num (u v : JsValue) (hu : numOrNull u = true)
    (hv : numOrNull v = true) :
    cmpVal u v = cmpO (asNum u) (asNum v) := by
  cases u <;> cases v <;>
    simp_all [numOrNull, cmpVal, cmpO, asNum, isNull, jsLt, jsGt, numLt,
      valueToNumber]

lemma cmpVal_eq_cmpO_str (u v : JsValue) (hu : strOrNull u = true)
    (hv : strOrNull v = true) :
    cmpVal u v = cmpO (asStr u) (asStr v) := by
  cases u <;> cases v <;>
    simp_all [strOrNull, cmpVal, cmpO, asStr, isNull, jsLt, jsGt, numLt,
      valueToNumber]

lemma cmpVal_trans_facts (x y z : JsValue) (h : homTriple x y z) :
    (cmpVal x y < 0 → cmpVal y z ≤ 0 → cmpVal x z < 0) ∧
    (cmpVal x y ≤ 0 → cmpVal y z < 0 → cmpVal x z < 0) ∧
    (cmpVal x y = 0 → cmpVal y z = 0 → cmpVal x z = 0) := by
  rcases h with ⟨h1, h2, h3⟩ | ⟨h1, h2, h3⟩
  · rw [cmpVal_eq_cmpO_num x y h1 h2, cmpVal_eq_cmpO_num y z h2 h3,
      cmpVal_eq_cmpO_num x z h1 h3]
    refine ⟨fun hab hbc => ?_, fun hab hbc => ?_, fun hab hbc => ?_⟩
    · rw [cmpO_neg_iff] at hab ⊢
      rw [cmpO_nonpos_iff] at hbc
      exact lt_of_lt_of_le hab hbc
    · rw [cmpO_nonpos_iff] at hab
      rw [cmpO_neg_iff] at hbc ⊢
      exact lt_of_le_of_lt hab hbc
    · rw [cmpO_zero_iff] at hab hbc ⊢
      exact hab.trans hbc
  · rw [cmpVal_eq_cmpO_str x y h1 h2, cmpVal_eq_cmpO_str y z h2 h3,
      cmpVal_eq_cmpO_str x z h1 h3]
    refine ⟨fun hab hbc => ?_, fun hab hbc => ?_, fun hab hbc => ?_⟩
    · rw [cmpO_neg_iff] at hab ⊢
      rw [cmpO_nonpos_iff] at hbc
      exact lt_of_lt_of_le hab hbc
    · rw [cmpO_nonpos_iff] at hab
      rw [cmpO_neg_iff] at hbc ⊢
      exact lt_of_le_of_lt hab hbc
    · rw [cmpO_zero_iff] at hab hbc ⊢
      exact hab.trans hbc

lemma cmpOne_trans_facts (f : String) (d : Direction) (a b c : Item)
    (h : homTriple (a f) (b f) (c f)) :
    (cmpOne f d a b < 0 → cmpOne f d b c ≤ 0 → cmpOne f d a c < 0) ∧
    (cmpOne f d a b ≤ 0 → cmpOne f d b c < 0 → cmpOne f d a c < 0) ∧
    (cmpOne f d a b = 0 → cmpOne f d b c = 0 → cmpOne f d a c = 0) := by
  cases d
  case asc =>
    have hf := cmpVal_trans_facts (a f) (b f) (c f) h
    simpa [cmpOne] using hf
  case desc =>
    have hrev : homTriple (c f) (b f) (a f) := by
      rcases h with ⟨h1, h2, h3⟩ | ⟨h1, h2, h3⟩
      · exact Or.inl ⟨h3, h2, h1⟩
      · exact Or.inr ⟨h3, h2, h1⟩
    obtain ⟨f1, f2, f3⟩ := cmpVal_trans_facts (c f) (b f) (a f) hrev
    rw [cmpVal_flip (b f) (c f)] at f1 f2 f3
    rw [cmpVal_flip (a f) (b f)] at f1 f2 f3
    rw [cmpVal_flip (a f) (c f)] at f1 f2 f3
    simp only [cmpOne, if_pos]
    refine ⟨fun hab hbc => ?_, fun hab hbc => ?_, fun hab hbc => ?_⟩
    · have := f2 (by omega) (by omega)
      omega
    · have := f1 (by omega) (by omega)
      omega
    · have := f3 (by omega) (by omega)
      omega

lemma cmpKeys_trans :
    ∀ (obs : List (String × Direction)) (a b c : Item),
      (∀ ob ∈ obs, homTriple (a ob.1) (b ob.1) (c ob.1)) →
      cmpKeys obs a b ≤ 0 → cmpKeys obs b c ≤ 0 → cmpKeys obs a c ≤ 0 := by
  intro obs
  induction obs with
  | nil =>
    intro a b c _ _ _
    simp [cmpKeys]
  | cons ob rest ih =>
    intro a b c hh hab hbc
    obtain ⟨f, d⟩ := ob
    obtain ⟨g1, g2, g3⟩ :=
      cmpOne_trans_facts f d a b c (hh (f, d) (List.mem_cons_self _ _))
    have hhr : ∀ ob2 ∈ rest, homTriple (a ob2.1) (b ob2.1) (c ob2.1) :=
      fun ob2 hm => hh ob2 (List.mem_cons_of_mem _ hm)
    simp only [cmpKeys] at hab hbc ⊢
    by_cases h1 : cmpOne f d a b = 0 <;> by_cases h2 : cmpOne f d b c = 0
    · have h3 : cmpOne f d a c = 0 := g3 h1 h2
      simp only [h1, h2, h3, ne_eq, not_true_eq_false, if_false] at hab hbc ⊢
      exact ih a b c hhr hab hbc
    · have hb : cmpOne f d b c < 0 := by
        simp only [ne_eq, h2, not_false_eq_true, if_true] at hbc
        omega
      have h3 : cmpOne f d a c < 0 := g2 (by omega) hb
      simp only [ne_eq, h3.ne, not_false_eq_true, if_true]
      omega
    · have ha : cmpOne f d a b < 0 := by
        simp only [ne_eq, h1, not_false_eq_true, if_true] at hab
        omega
      have h3 : cmpOne f d a c < 0 := g1 ha (by omega)
      simp only [ne_eq, h3.ne, not_false_eq_true, if_true]
      omega
    · have ha : cmpOne f d a b < 0 := by
        simp only [ne_eq, h1, not_false_eq_true, if_true] at hab
        omega
      have hb : cmpOne f d b c < 0 := by
        simp only [ne_eq, h2, not_false_eq_true, if_true] at hbc
        omega
      have h3 : cmpOne f d a c < 0 := g1 ha (by omega)
      simp only [ne_eq, h3.ne, not_false_eq_true, if_true]
      omega

lemma pairwise_orderedInsert {alpha : Type} (r : alpha → alpha → Prop)
    [DecidableRel r] (a : alpha) :
    ∀ l : List alpha,
      l.Pairwise r →
      (∀ x ∈ l, r a x ∨ r x a) →
      (∀ x ∈ l, ∀ y ∈ l, r a x → r x y → r a y) →
      (List.orderedInsert r a l).Pairwise r := by
  intro l
  induction l with
  | nil =>
    intro _ _ _
    simp
  | cons b t ih =>
    intro hp htot htr
    obtain ⟨hbt, hpt⟩ := List.pairwise_cons.mp hp
    simp only [List.orderedInsert]
    by_cases hab : r a b
    · rw [if_pos hab]
      refine List.Pairwise.cons ?_ hp
      intro x hx
      rcases List.mem_cons.mp hx with rfl | hxt
      · exact hab
      · exact htr b (List.mem_cons_self _ _) x (List.mem_cons_of_mem _ hxt)
          hab (hbt x hxt)
    · rw [if_neg hab]
      refine List.Pairwise.cons ?_ ?_
      · intro x hx
        rcases (List.mem_orderedInsert r).mp hx with heq | hxt
        · subst heq
          rcases htot b (List.mem_cons_self _ _) with h | h
          · exact absurd h hab
          · exact h
        · exact hbt x hxt
      · exact ih hpt
          (fun x hx => htot x (List.mem_cons_of_mem _ hx))
          (fun x hx y hy => htr x (List.mem_cons_of_mem _ hx) y
            (List.mem_cons_of_mem _ hy))

lemma pairwise_insertionSort_local {alpha : Type} (r : alpha → alpha → Prop)
    [DecidableRel r] :
    ∀ l : List alpha,
      (∀ x ∈ l, ∀ y ∈ l, r x y ∨ r y x) →
      (∀ x ∈ l, ∀ y ∈ l, ∀ z ∈ l, r x y → r y z → r x z) →
      (List.insertionSort r l).Pairwise r := by
  intro l
  induction l with
  | nil =>
    intro _ _
    simp
  | cons a t ih =>
    intro htot htr
    simp only [List.insertionSort]
    apply pairwise_orderedInsert
    · exact ih
        (fun x hx y hy => htot x (List.mem_cons_of_mem _ hx) y
          (List.mem_cons_of_mem _ hy))
        (fun x hx y hy z hz => htr x (List.mem_cons_of_mem _ hx) y
          (List.mem_cons_of_mem _ hy) z (List.mem_cons_of_mem _ hz))
    · intro x hx
      have hxm : x ∈ a :: t :=
        List.mem_cons_of_mem _ ((List.mem_insertionSort r).mp hx)
      exact htot a (List.mem_cons_self _ _) x hxm
    · intro x hx y hy hax hxy
      have hxm : x ∈ a :: t :=
        List.mem_cons_of_mem _ ((List.mem_insertionSort r).mp hx)
      have hym : y ∈ a :: t :=
        List.mem_cons_of_mem _ ((List.mem_insertionSort r).mp hy)
      exact htr a (List.mem_cons_self _ _) x hxm y hym hax hxy

lemma pairwise_trivial {alpha : Type} (R : alpha → alpha → Prop)
    (h : ∀ a b : alpha, R a b) : ∀ l : List alpha, l.Pairwise R := by
  intro l
  induction l with
  | nil => exact List.Pairwise.nil
  | cons a t ih => exact List.Pairwise.cons (fun b _ => h a b) ih

lemma isNull_eq_false {v : JsValue} (h : v ≠ JsValue.null) : isNull v = false := by
  cases v <;> simp_all [isNull]

lemma cmpOne_asc_null (f : String) (a b : Item) (ha : a f = JsValue.null)
    (hb : b f ≠ JsValue.null) : cmpOne f Direction.asc a b = -1 := by
  simp [cmpOne, cmpVal, ha, isNull, isNull_eq_false hb]

/-- Claim C8: `applyQuery` sorts with the comparator that tries the
registered ordering keys in registration order as successive tie-breaks
(first key primary, the next key consulted only on a zero comparison);
under one key a null field value compares before a non-null one when the
direction is ascending, the descending comparator is exactly the sign-flip
of the ascending one — hence null compares after non-null when descending —
and the output of `applyQuery` is pairwise sorted under this comparator
(stated for schema-homogeneous order-by fields, where each ordering field
holds numbers-or-null or strings-or-null across the record set, as a typed
column provides; the comparator is not transitive on mixed-type data). -/
theorem orderingClaim :
    (∀ (f : String) (d : Direction) (rest : List (String × Direction))
      (a b : Item),
      cmpKeys ((f, d) :: rest) a b =
        (if cmpOne f d a b ≠ 0 then cmpOne f d a b else cmpKeys rest a b)) ∧
    (∀ (f : String) (a b : Item), a f = JsValue.null → b f ≠ JsValue.null →
      cmpOne f Direction.asc a b = -1) ∧
    (∀ (f : String) (a b : Item),
      cmpOne f Direction.desc a b = -(cmpOne f Direction.asc a b)) ∧
    (∀ (f : String) (a b : Item), a f = JsValue.null → b f ≠ JsValue.null →
      cmpOne f Direction.desc a b = 1) ∧
    (∀ (q : Query) (data : List Item),
      (∀ ob ∈ q.orderByConditions, fieldOk ob.1 data) →
      (applyQuery q data).Pairwise
        (fun a b => cmpKeys q.orderByConditions a b ≤ 0)) := by
  refine ⟨fun f d rest a b => rfl, cmpOne_asc_null, fun f a b => rfl,
    fun f a b ha hb => ?_, fun q data hfo => ?_⟩
  · have h2 := cmpOne_asc_null f a b ha hb
    have h3 : cmpOne f Direction.desc a b = -(cmpOne f Direction.asc a b) := rfl
    omega
  · have hsorted : (filteredSorted q data).Pairwise
        (fun a b => cmpKeys q.orderByConditions a b ≤ 0) := by
      unfold filteredSorted
      by_cases hlen : q.orderByConditions.length > 0
      · rw [if_pos hlen]
        unfold sortStep
        apply pairwise_insertionSort_local
        · intro x _ y _
          exact sortLe_total q.orderByConditions x y
        · intro x hx y hy z hz hxy hyz
          refine cmpKeys_trans q.orderByConditions x y z ?_ hxy hyz
          intro ob hob
          have hx2 : x ∈ data := (List.mem_filter.mp hx).1
          have hy2 : y ∈ data := (List.mem_filter.mp hy).1
          have hz2 : z ∈ data := (List.mem_filter.mp hz).1
          rcases hfo ob hob with hnum | hstr
          · exact Or.inl ⟨hnum x hx2, hnum y hy2, hnum z hz2⟩
          · exact Or.inr ⟨hstr x hx2, hstr y hy2, hstr z hz2⟩
      · rw [if_neg hlen]
        have hobs : q.orderByConditions = [] := by
          cases hq : q.orderByConditions
          · rfl
          · rw [hq] at hlen
            simp at hlen
        rw [hobs]
        exact pairwise_trivial _ (fun a b => by simp [cmpKeys]) _
    show (applyQuery q data).Pairwise _
    unfold applyQuery
    cases hlv : q.limitValue with
    | none => exact hsorted
    | some n =>
      by_cases hn : (0:Int) ≤ n
      · simpa [hn] using hsorted.sublist (List.take_sublist n.toNat (filteredSorted q data))
      · simpa [hn] using hsorted

/-- Claim C8 witness: with the single descending key `x`, null compares
before non-null ascending and after non-null descending, and the query
output over three records is pairwise sorted under the comparator. -/
theorem orderingClaimWitness :
    cmpOne "x" Direction.asc ordA ordB = -1 ∧
    cmpOne "x" Direction.desc ordA ordB = 1 ∧
    (applyQuery ordQuery [ordA, ordC, ordB]).Pairwise
      (fun a b => cmpKeys ordQuery.orderByConditions a b ≤ 0) :=
  ⟨orderingClaim.2.1 "x" ordA ordB rfl (by simp [ordB]),
   orderingClaim.2.2.2.1 "x" ordA ordB rfl (by simp [ordB]),
   orderingClaim.2.2.2.2 ordQuery [ordA, ordC, ordB] (by
     intro ob hob
     left
     intro r hr
     simp only [ordQuery, List.mem_singleton] at hob
     subst hob
     rcases List.mem_cons.mp hr with heq | hr2
     · subst heq
       rfl
     rcases List.mem_cons.mp hr2 with heq | hr3
     · subst heq
       rfl
     rcases List.mem_cons.mp hr3 with heq | hr4
     · subst heq
       rfl
     · exact absurd hr4 (List.not_mem_nil r))⟩
